import Mathlib

/-!
# Verification of the speech I/O orchestration layer (`src/hooks/useSpeech.ts`)

This file gives a shallow embedding of the TTS / STT hooks of the
repository and proves or refutes the frozen behavioural claims about them.

The embedding models:
* `globalStop` / `window.speechSynthesis.cancel()` — the process-wide stop
  primitive (`globalStopS`); cancelling an utterance is modelled as firing its
  terminal error callback (the standard behaviour for cancelled utterances),
  which the hook's `onerror` turns into state `error`;
* `useTTS` — a per-instance playback session (`Inst`) embedded inside a
  process-wide system (`Sys n`) of `n` independent controller instances plus
  the shared synthesis engine's paused flag; the asynchronous pieces of the
  source (`getIndianVoiceAsync().then(doSpeak)` and the 80 ms replay timer)
  are modelled as separate events (`resolveV`, `timerFire`) so that the
  event-loop interleavings of the real code are expressible;
* `pickIndianVoice` / `getIndianVoiceAsync` — the voice-selection resolver and
  its promise machinery (`VRState`);
* `useSTT` — the recognition session (`STTSession`) with its `onresult` and
  `onerror` handlers.
-/

namespace Elexico


/-! ## Word counting: JavaScript `t.split(/\s+/).length` -/

/-- JavaScript-style split on runs of whitespace (`"s".split(/\s+/)`):
separators are maximal whitespace runs, and a run at the very start or the
very end of the string contributes an empty piece, exactly as in JS.
The boolean argument records whether we are currently inside a whitespace
run. -/
def jsSplitGo : Bool → List Char → List Char → List String
  | _, [], cur => [String.mk cur.reverse]
  | inWS, c :: rest, cur =>
    if c.isWhitespace then
      if inWS then jsSplitGo true rest []
      else String.mk cur.reverse :: jsSplitGo true rest []
    else jsSplitGo false rest (c :: cur)

/-- `t.split(/\s+/)` from the source's `_speak`. -/
def jsSplitWS (s : String) : List String :=
  jsSplitGo false s.data []

/-- `const words = t.split(/\s+/).length` — the total word count of a
spoken text. -/
def jsWordCount (s : String) : Nat :=
  (jsSplitWS s).length

/-! ## Progress arithmetic: `Math.min(99, Math.round((wordIdx / words) * 100))` -/

/-- `Math.round((k / w) * 100)` for natural `k`, `w` (with `w ≥ 1`):
JS `Math.round(x)` is `⌊x + 1/2⌋` for non-negative `x`, and
`⌊100k/w + 1/2⌋ = ⌊(200k + w) / (2w)⌋`. -/
def roundPct (k w : Nat) : Nat :=
  (200 * k + w) / (2 * w)

/-- The value written to `progress` on a word-boundary event. -/
def boundaryProgress (k w : Nat) : Nat :=
  min 99 (roundPct k w)

/-! ## Voice selection: `pickIndianVoice` -/

/-- A synthesis voice as the resolver sees it: `lang` and `name`. -/
structure Voice where
  lang : String
  name : String
deriving DecidableEq, Repr

/-- Substring test on character lists (used for `String.prototype.includes`
and the case-insensitive regex tests of the source). -/
def hasSubList : List Char → List Char → Bool
  | hay, pat =>
    match hay with
    | [] => pat.isEmpty
    | _ :: t => pat.isPrefixOf hay || hasSubList t pat

/-- `hay.includes(pat)` on strings. -/
def strIncludes (hay pat : String) : Bool :=
  hasSubList hay.data pat.data

/-- `s.toLowerCase()` (character-wise lowering). -/
def lowerStr (s : String) : String :=
  String.mk (s.data.map Char.toLower)

/-- `s.startsWith(p)`. -/
def strStarts (s p : String) : Bool :=
  p.data.isPrefixOf s.data

/-- JS `s.trim()`: strip whitespace from both ends. -/
def jsTrim (s : String) : String :=
  String.mk (((s.data.dropWhile Char.isWhitespace).reverse.dropWhile
    Char.isWhitespace).reverse)

/-- `v.name.toLowerCase().includes("google")`. -/
def isGoogleName (name : String) : Bool :=
  strIncludes (lowerStr name) "google"

/-- `/ravi|heera|neerja|veena|lekha/i.test(v.name)`. -/
def isIndianPersonaName (name : String) : Bool :=
  ["ravi", "heera", "neerja", "veena", "lekha"].any
    fun p => strIncludes (lowerStr name) p

/-- `pickIndianVoice` from the source: a `??`-chain of `voices.find(...)`
calls, top preference first, `null` when nothing matches. -/
def pickIndianVoice (voices : List Voice) : Option Voice :=
  ((((voices.find? fun v => v.lang == "en-IN" && isGoogleName v.name) <|>
      (voices.find? fun v => v.lang == "en-IN" && isIndianPersonaName v.name)) <|>
     (voices.find? fun v => v.lang == "en-IN")) <|>
    (voices.find? fun v => strStarts v.lang "en" && isGoogleName v.name)) <|>
   (voices.find? fun v => strStarts v.lang "en")

/-- The spec's description of the resolver: an ordered list of predicate
rules, applied first-match-wins to the catalog snapshot. -/
def firstRuleMatch : List (Voice → Bool) → List Voice → Option Voice
  | [], _ => none
  | r :: rest, vs =>
    match vs.find? r with
    | some v => some v
    | none => firstRuleMatch rest vs

/-- The five preference rules, in the spec's order: exact target-locale voice
from the named high-quality provider; named target-locale voice; any
target-locale voice; provider voice with the target language; any voice with
the target language. -/
def voiceRules : List (Voice → Bool) :=
  [fun v => v.lang == "en-IN" && isGoogleName v.name,
   fun v => v.lang == "en-IN" && isIndianPersonaName v.name,
   fun v => v.lang == "en-IN",
   fun v => strStarts v.lang "en" && isGoogleName v.name,
   fun v => strStarts v.lang "en"]

/-! ## The TTS system: `n` independent `useTTS` instances plus the shared
synthesis engine.

The asynchronous structure of the source is kept: `_speak` is split into its
synchronous phase (`globalStop(); getIndianVoiceAsync().then(doSpeak)` — the
stop happens now, `doSpeak` later) and the deferred `doSpeak` continuation
(event `resolveV`); `replay`'s `setTimeout(() => _speak(...), 80)` is split
into the synchronous reset and the deferred timer body (event `timerFire`). -/

/-- `TTSState` from the source. -/
inductive TTSState
  | idle
  | playing
  | paused
  | done
  | error
deriving DecidableEq, Repr

/-- One `useTTS` instance: its React state (`state`, `progress`), its refs
(`text` = `textRef.current`), whether its current utterance is still alive in
the engine (`live`, standing for a non-cancelled `uttRef.current` utterance),
the per-utterance closure variables `words` and `wordIdx`, and the two
deferred continuations: `pendingSpeak` (a `doSpeak` waiting on voice
resolution) and `timerSet` (the pending replay timer). -/
structure Inst where
  tstate : TTSState
  progress : Nat
  text : String
  live : Bool
  words : Nat
  wordIdx : Nat
  pendingSpeak : Option String
  timerSet : Bool
deriving DecidableEq, Repr

/-- The process: `n` controller instances and the shared engine's paused
flag. -/
structure Sys (n : Nat) where
  insts : Fin n → Inst
  enginePaused : Bool
deriving DecidableEq

/-- Cancelling a live utterance fires its terminal callback; the hook's
`utt.onerror = () => setState("error")` turns that into state `error`
(progress is not touched). A non-live instance is unaffected. -/
def cancelInst (a : Inst) : Inst :=
  if a.live then { a with live := false, tstate := .error } else a

/-- `globalStop()` / `window.speechSynthesis.cancel()`: cancels every live
utterance in the process, firing each one's terminal callback. -/
def globalStopS {n : Nat} (s : Sys n) : Sys n :=
  { s with insts := fun j => cancelInst (s.insts j) }

/-- Update one instance of the system. -/
def upd {n : Nat} (s : Sys n) (i : Fin n) (f : Inst → Inst) : Sys n :=
  { s with insts := fun j => if j = i then f (s.insts j) else s.insts j }

/-- The synchronous phase of `_speak(t)`: `globalStop()` now, `doSpeak`
deferred behind the voice promise. -/
def speakPhase {n : Nat} (s : Sys n) (i : Fin n) (t : String) : Sys n :=
  upd (globalStopS s) i fun a => { a with pendingSpeak := some t }

/-- The public `speak(t)`: `if (!t) return; _speak(t)`. -/
def speakStep {n : Nat} (s : Sys n) (i : Fin n) (t : String) : Sys n :=
  if t = "" then s else speakPhase s i t

/-- The deferred `doSpeak` continuation (`getIndianVoiceAsync().then(...)`):
builds the utterance closure (`words`, `wordIdx = 0`), hands it to the
engine, and sets state `playing`. Note that `progress` is NOT reset here —
the source's `doSpeak` never writes `progress`. -/
def resolveStep {n : Nat} (s : Sys n) (i : Fin n) : Sys n :=
  match (s.insts i).pendingSpeak with
  | none => s
  | some t =>
      upd s i fun a =>
        { a with
          pendingSpeak := none
          live := true
          tstate := .playing
          words := jsWordCount t
          wordIdx := 0 }

/-- `play()`: no-op on empty bound text; resume without re-synthesis when
paused; otherwise `_speak(textRef.current)`. -/
def playStep {n : Nat} (s : Sys n) (i : Fin n) : Sys n :=
  if (s.insts i).text = "" then s
  else if (s.insts i).tstate = .paused then
    { upd s i (fun a => { a with tstate := .playing }) with enginePaused := false }
  else speakPhase s i (s.insts i).text

/-- `pause()`: `window.speechSynthesis.pause(); setState("paused")` —
unconditional in the source. -/
def pauseStep {n : Nat} (s : Sys n) (i : Fin n) : Sys n :=
  { upd s i (fun a => { a with tstate := .paused }) with enginePaused := true }

/-- The synchronous phase of `replay()`: `globalStop()`, reset state and
progress, clear `uttRef`, and arm the 80 ms settle timer. -/
def replayStep {n : Nat} (s : Sys n) (i : Fin n) : Sys n :=
  upd (globalStopS s) i fun a =>
    { a with tstate := .idle, progress := 0, timerSet := true }

/-- The replay timer body: `_speak(textRef.current)` (note: no empty-text
guard in the timer body, unlike the public `speak`). -/
def timerStep {n : Nat} (s : Sys n) (i : Fin n) : Sys n :=
  if (s.insts i).timerSet then
    speakPhase (upd s i fun a => { a with timerSet := false }) i (s.insts i).text
  else s

/-- `stop()`: `globalStop()`, state `idle`, progress 0, clear `uttRef`. -/
def stopStep {n : Nat} (s : Sys n) (i : Fin n) : Sys n :=
  upd (globalStopS s) i fun a => { a with tstate := .idle, progress := 0 }

/-- The `useEffect` reset that runs when the bound text changes:
`cancel(); setState("idle"); setProgress(0); uttRef.current = null`, with
`textRef.current` updated to the new text. -/
def textChangeStep {n : Nat} (s : Sys n) (i : Fin n) (t : String) : Sys n :=
  upd (globalStopS s) i fun a =>
    { a with tstate := .idle, progress := 0, text := t }

/-- The body of `utt.onboundary` for one instance: increment the word counter
and write `min(99, round(wordIdx / words * 100))`. -/
def instBoundary (a : Inst) : Inst :=
  { a with
    wordIdx := a.wordIdx + 1
    progress := boundaryProgress (a.wordIdx + 1) a.words }

/-- The engine's word-boundary callback (for `e.name === "word"`), which only
fires for a live utterance. -/
def boundaryStep {n : Nat} (s : Sys n) (i : Fin n) : Sys n :=
  if (s.insts i).live then upd s i instBoundary else s

/-- The body of `utt.onend` for one instance: state `done`, progress exactly
100, the utterance finished. -/
def instEnd (a : Inst) : Inst :=
  { a with live := false, tstate := .done, progress := 100 }

/-- The body of `utt.onerror` for one instance: state `error`. -/
def instErr (a : Inst) : Inst :=
  { a with live := false, tstate := .error }

/-- The engine's completion callback `utt.onend`, which only fires for a live
utterance. -/
def endStep {n : Nat} (s : Sys n) (i : Fin n) : Sys n :=
  if (s.insts i).live then upd s i instEnd else s

/-- The engine's failure callback `utt.onerror`. -/
def errStep {n : Nat} (s : Sys n) (i : Fin n) : Sys n :=
  if (s.insts i).live then upd s i instErr else s

/-- An atomic event of the process: a public controller call, one of the two
deferred continuations, or an engine callback. -/
inductive Ev (n : Nat)
  | speakCall (i : Fin n) (t : String)
  | resolveV (i : Fin n)
  | playCall (i : Fin n)
  | pauseCall (i : Fin n)
  | replayCall (i : Fin n)
  | timerFire (i : Fin n)
  | stopCall (i : Fin n)
  | textChange (i : Fin n) (t : String)
  | boundary (i : Fin n)
  | endEv (i : Fin n)
  | errEv (i : Fin n)
deriving DecidableEq, Repr

/-- The transition function of the process. -/
def step {n : Nat} (s : Sys n) : Ev n → Sys n
  | .speakCall i t => speakStep s i t
  | .resolveV i => resolveStep s i
  | .playCall i => playStep s i
  | .pauseCall i => pauseStep s i
  | .replayCall i => replayStep s i
  | .timerFire i => timerStep s i
  | .stopCall i => stopStep s i
  | .textChange i t => textChangeStep s i t
  | .boundary i => boundaryStep s i
  | .endEv i => endStep s i
  | .errEv i => errStep s i

/-- Run a sequence of events. -/
def run {n : Nat} (s : Sys n) (evs : List (Ev n)) : Sys n :=
  evs.foldl step s

/-- A freshly mounted instance bound to text `t`. -/
def initInst (t : String) : Inst :=
  { tstate := .idle
    progress := 0
    text := t
    live := false
    words := 1
    wordIdx := 0
    pendingSpeak := none
    timerSet := false }

/-- A freshly mounted process of `n` instances with bound texts `texts`. -/
def initSys {n : Nat} (texts : Fin n → String) : Sys n :=
  { insts := fun i => initInst (texts i), enginePaused := false }

/-- An instance the spec calls "Playing or Paused". -/
def isActive (a : Inst) : Prop :=
  a.tstate = .playing ∨ a.tstate = .paused

instance (a : Inst) : Decidable (isActive a) := by
  unfold isActive; infer_instance

/-! ## The asynchronous voice resolver: `getIndianVoiceAsync` -/

/-- The state of one `getIndianVoiceAsync()` promise: `result` is `none`
while pending and `some r` once resolved with `r` (promises resolve at most
once — later `resolve` calls are no-ops); `handlerOn` records whether the
`voiceschanged` listener is still attached; `timerOn` whether the 2000 ms
safety timeout is still armed. -/
structure VRState where
  result : Option (Option Voice)
  handlerOn : Bool
  timerOn : Bool
deriving DecidableEq, Repr

/-- JS promise `resolve`: only the first call takes effect. -/
def resolveOnce (r : Option (Option Voice)) (v : Option Voice) :
    Option (Option Voice) :=
  match r with
  | none => some v
  | some r₀ => some r₀

/-- The synchronous body of `getIndianVoiceAsync()` given the catalog at call
time: resolve immediately when the catalog is non-empty, otherwise attach the
`voiceschanged` listener and arm the 2000 ms timeout. -/
def vrInit (catalog : List Voice) : VRState :=
  if catalog.length > 0 then
    { result := some (pickIndianVoice catalog), handlerOn := false, timerOn := false }
  else
    { result := none, handlerOn := true, timerOn := true }

/-- Events that can reach the promise: a `voiceschanged` notification
carrying the catalog at that moment, or the 2000 ms timeout firing. -/
inductive VREv
  | voicesChanged (catalog : List Voice)
  | timeout
deriving DecidableEq, Repr

/-- One event: the `voiceschanged` handler removes itself and resolves with
the freshly picked voice; the timeout removes the handler and resolves
`null`. Either resolution is a no-op if the promise is already settled. -/
def vrStep (s : VRState) : VREv → VRState
  | .voicesChanged vs =>
      if s.handlerOn then
        { s with handlerOn := false, result := resolveOnce s.result (pickIndianVoice vs) }
      else s
  | .timeout =>
      if s.timerOn then
        { s with timerOn := false, handlerOn := false, result := resolveOnce s.result none }
      else s

/-- Run the promise through a sequence of events. -/
def vrRun (s : VRState) (evs : List VREv) : VRState :=
  evs.foldl vrStep s

/-! ## The STT hook: `useSTT` -/

/-- The stored members of the source's `STTError` union
`"not-allowed" | "no-speech" | "network" | "unsupported"` (the union's
`null` member is `none` at the `Option` level below). -/
inductive STTErrorKind
  | notAllowed
  | noSpeech
  | network
  | unsupported
deriving DecidableEq, Repr

/-- One `useSTT` instance: `listening`, live preview `interim`, last error
(`none` = the union's `null`), and the capability flag `supported`. -/
structure STTSession where
  listening : Bool
  interim : String
  error : Option STTErrorKind
  supported : Bool
deriving DecidableEq, Repr

/-- A fresh `useSTT` instance on a platform where the recognition engine is
present iff `sup`. -/
def initSTT (sup : Bool) : STTSession :=
  { listening := false, interim := "", error := none, supported := sup }

/-- One entry of a recognition result batch: its top-alternative transcript
and the `isFinal` flag. -/
structure RecEntry where
  transcript : String
  isFinal : Bool
deriving DecidableEq, Repr

/-- The interim side of the `onresult` accumulation loop:
`else interimText += t`. -/
def concatInterim (rs : List RecEntry) : String :=
  rs.foldl (fun acc r => if r.isFinal then acc else acc ++ r.transcript) ""

/-- The final side of the `onresult` accumulation loop:
`if (r.isFinal) finalText += t + " "`. -/
def concatFinal (rs : List RecEntry) : String :=
  rs.foldl (fun acc r => if r.isFinal then acc ++ r.transcript ++ " " else acc) ""

/-- `rec.onresult`: publish a non-empty interim concatenation as the live
preview; deliver the trimmed final concatenation to the consumer callback
only when non-empty, clearing the preview. Returns the new session and the
delivered transcript, if any. -/
def recOnResult (rs : List RecEntry) (s : STTSession) :
    STTSession × Option String :=
  let interimText := concatInterim rs
  let finalText := concatFinal rs
  let s₁ := if interimText ≠ "" then { s with interim := interimText } else s
  if jsTrim finalText ≠ "" then ({ s₁ with interim := "" }, some (jsTrim finalText))
  else (s₁, none)

/-- The error-mapping chain of `rec.onerror`. -/
def mapRecError (raw : String) : Option STTErrorKind :=
  if raw = "not-allowed" ∨ raw = "permission-denied" then some .notAllowed
  else if raw = "no-speech" then some .noSpeech
  else if raw = "network" then some .network
  else none

/-- `rec.onerror`: stop listening, clear the preview, store the mapped
error. -/
def recOnError (raw : String) (s : STTSession) : STTSession :=
  { s with listening := false, interim := "", error := mapRecError raw }

/-- `rec.onend`: the authoritative terminal signal. -/
def recOnEnd (s : STTSession) : STTSession :=
  { s with listening := false, interim := "" }

/-- `start()`: no-op when unsupported or already listening; otherwise clear
error and preview and start the engine. `threw` is true when the native
`start()` throws because a session is already active — the exception is
swallowed and `listening` is then left unchanged. -/
def sttStart (threw : Bool) (s : STTSession) : STTSession :=
  if ¬ s.supported ∨ s.listening then s
  else if threw then { s with error := none, interim := "" }
  else { s with error := none, interim := "", listening := true }

/-- `stop()`: ask the engine to stop and reflect it immediately. -/
def sttStop (s : STTSession) : STTSession :=
  { s with listening := false, interim := "" }

/-- While the promise is pending, the safety timeout is still armed. -/
def vrLive (s : VRState) : Prop :=
  s.result ≠ none ∨ s.timerOn = true

/-- The range invariant: every instance's progress is at most 100 (it is a
`Nat`, hence at least 0) and its word-count denominator is at least 1. -/
def ProgressInv {n : Nat} (s : Sys n) : Prop :=
  ∀ j : Fin n, (s.insts j).progress ≤ 100 ∧ 1 ≤ (s.insts j).words

/-- At most one instance of the process is in `Playing` or `Paused` state. -/
def SingleSpeaker {n : Nat} (s : Sys n) : Prop :=
  ∀ j k : Fin n, isActive (s.insts j) → isActive (s.insts k) → j = k

/-- The inductive invariant behind the amended C1: a single active speaker, a
single live utterance, active instances have live utterances, and no deferred
continuation is pending (serialization). -/
def C1Inv {n : Nat} (s : Sys n) : Prop :=
  SingleSpeaker s ∧
  (∀ j k : Fin n, (s.insts j).live = true → (s.insts k).live = true → j = k) ∧
  (∀ j : Fin n, isActive (s.insts j) → (s.insts j).live = true) ∧
  (∀ j : Fin n, (s.insts j).pendingSpeak = none ∧ (s.insts j).timerSet = false)

/-- The serialized high-level operations of the amended C1: each `speak` and
`replay` runs together with its deferred continuations (the settle timer and
the voice resolution) before the next event is processed, plus `stop` and
the engine callbacks. -/
inductive SOp (n : Nat)
  | speak (i : Fin n) (t : String)
  | replay (i : Fin n)
  | stop (i : Fin n)
  | boundary (i : Fin n)
  | endE (i : Fin n)
  | errE (i : Fin n)
deriving DecidableEq

/-- Run one serialized operation. -/
def sopRun {n : Nat} (s : Sys n) : SOp n → Sys n
  | .speak i t => resolveStep (speakStep s i t) i
  | .replay i => resolveStep (timerStep (replayStep s i) i) i
  | .stop i => stopStep s i
  | .boundary i => boundaryStep s i
  | .endE i => endStep s i
  | .errE i => errStep s i

/-- Run a list of serialized operations. -/
def sopsRun {n : Nat} (s : Sys n) (ops : List (SOp n)) : Sys n :=
  ops.foldl sopRun s

/-! ## Theorems -/

theorem jsSplitGo_ne_nil (b : Bool) (l : List Char) (cur : List Char) :
    (jsSplitGo b l cur).length ≥ 1 := by
  induction l generalizing b cur with
  | nil => simp [jsSplitGo]
  | cons c rest ih =>
    by_cases hw : c.isWhitespace
    · by_cases hb : b
      · simpa [jsSplitGo, hw, hb] using ih true []
      · simp [jsSplitGo, hw, hb]
    · simpa [jsSplitGo, hw] using ih false (c :: cur)

/-- A JS `split(/\s+/)` never yields an empty array, so the word count is
always at least 1 (in particular `"".split(/\s+/) = [""]`). -/
theorem jsWordCount_pos (s : String) : 1 ≤ jsWordCount s :=
  jsSplitGo_ne_nil false s.data []

theorem roundPct_mono {k k' : Nat} (w : Nat) (h : k ≤ k') :
    roundPct k w ≤ roundPct k' w := by
  unfold roundPct
  exact Nat.div_le_div_right (by omega)

theorem boundaryProgress_mono {k k' : Nat} (w : Nat) (h : k ≤ k') :
    boundaryProgress k w ≤ boundaryProgress k' w :=
  min_le_min le_rfl (roundPct_mono w h)

theorem boundaryProgress_le_99 (k w : Nat) : boundaryProgress k w ≤ 99 :=
  min_le_left _ _

theorem boundaryProgress_lt_100 (k w : Nat) : boundaryProgress k w < 100 :=
  lt_of_le_of_lt (boundaryProgress_le_99 k w) (by omega)

theorem run_append {n : Nat} (s : Sys n) (l₁ l₂ : List (Ev n)) :
    run s (l₁ ++ l₂) = run (run s l₁) l₂ :=
  List.foldl_append ..

/-! ## General lemmas about the models -/

theorem upd_insts_self {n : Nat} (s : Sys n) (i : Fin n) (f : Inst → Inst) :
    (upd s i f).insts i = f (s.insts i) := by
  simp [upd]

theorem upd_insts_ne {n : Nat} (s : Sys n) {i j : Fin n} (f : Inst → Inst)
    (h : j ≠ i) : (upd s i f).insts j = s.insts j := by
  simp [upd, h]

/-- A settled promise never changes its value again (JS promises resolve at
most once; later `resolve` calls are no-ops). -/
theorem vrRun_settled {r : Option Voice} :
    ∀ (evs : List VREv) (s : VRState), s.result = some r →
      (vrRun s evs).result = some r := by
  intro evs
  induction evs with
  | nil => intro s h; exact h
  | cons e rest ih =>
    intro s h
    have hstep : (vrStep s e).result = some r := by
      cases e with
      | voicesChanged vs =>
        by_cases hh : s.handlerOn = true
        · simp [vrStep, hh, resolveOnce, h]
        · simp only [Bool.not_eq_true] at hh
          simp [vrStep, hh, h]
      | timeout =>
        by_cases ht : s.timerOn = true
        · simp [vrStep, ht, resolveOnce, h]
        · simp only [Bool.not_eq_true] at ht
          simp [vrStep, ht, h]
    simpa [vrRun] using ih (vrStep s e) hstep

theorem vrStep_live {s : VRState} (h : vrLive s) (e : VREv) :
    vrLive (vrStep s e) := by
  cases e with
  | voicesChanged vs =>
    by_cases hh : s.handlerOn = true
    · left; simp [vrStep, hh, resolveOnce]
      cases hr : s.result <;> simp
    · simp only [Bool.not_eq_true] at hh
      simpa [vrStep, hh] using h
  | timeout =>
    by_cases ht : s.timerOn = true
    · left; simp [vrStep, ht, resolveOnce]
      cases hr : s.result <;> simp
    · simp only [Bool.not_eq_true] at ht
      simpa [vrStep, ht] using h

theorem vrRun_timeout_settles :
    ∀ (pre : List VREv) (s : VRState), vrLive s →
      ∀ post, (vrRun s (pre ++ VREv.timeout :: post)).result ≠ none := by
  intro pre
  induction pre with
  | nil =>
    intro s h post
    have hstep : (vrStep s .timeout).result ≠ none := by
      by_cases ht : s.timerOn = true
      · simp only [vrStep, ht, if_true]
        cases hr : s.result <;> simp [resolveOnce]
      · simp only [Bool.not_eq_true] at ht
        rcases h with h | h
        · simpa [vrStep, ht] using h
        · rw [ht] at h; exact absurd h (by simp)
    rcases hr : (vrStep s .timeout).result with _ | r
    · exact absurd hr hstep
    · have h₂ : (vrRun (vrStep s .timeout) post).result = some r :=
        vrRun_settled post _ hr
      have h₃ : vrRun s ([] ++ VREv.timeout :: post) =
          vrRun (vrStep s .timeout) post := rfl
      rw [h₃, h₂]
      simp
  | cons e rest ih =>
    intro s h post
    have : vrRun s ((e :: rest) ++ VREv.timeout :: post) =
        vrRun (vrStep s e) (rest ++ VREv.timeout :: post) := rfl
    rw [this]
    exact ih (vrStep s e) (vrStep_live h e) post

/-! ## Claim theorems -/

/-- C9: voice resolution applies its ordered preference rules to the current
catalog snapshot and returns the first match — exact target-locale (`en-IN`)
voice from the named provider (Google), else a named (`ravi`/`heera`/
`neerja`/`veena`/`lekha`) target-locale voice, else any target-locale voice,
else a provider voice with the target language ("en") first in its tag, else
any voice with the target language first in its tag, else `null`; returning
`null` when no rule matches is the normal outcome. -/
theorem c9_voice_rule_order (vs : List Voice) :
    pickIndianVoice vs = firstRuleMatch voiceRules vs ∧
    (pickIndianVoice vs = none ↔ ∀ v ∈ vs, ∀ r ∈ voiceRules, r v = false) := by
  constructor
  · simp only [pickIndianVoice, firstRuleMatch, voiceRules]
    cases h₁ : vs.find? fun v => v.lang == "en-IN" && isGoogleName v.name <;>
      cases h₂ : vs.find? fun v => v.lang == "en-IN" && isIndianPersonaName v.name <;>
      cases h₃ : vs.find? fun v => v.lang == "en-IN" <;>
      cases h₄ : vs.find? fun v => strStarts v.lang "en" && isGoogleName v.name <;>
      cases h₅ : vs.find? fun v => strStarts v.lang "en" <;>
      simp [firstRuleMatch, h₁, h₂, h₃, h₄, h₅]
  · have hconj : pickIndianVoice vs = none ↔
        ((vs.find? fun v => v.lang == "en-IN" && isGoogleName v.name) = none ∧
         (vs.find? fun v => v.lang == "en-IN" && isIndianPersonaName v.name) = none ∧
         (vs.find? fun v => v.lang == "en-IN") = none ∧
         (vs.find? fun v => strStarts v.lang "en" && isGoogleName v.name) = none ∧
         (vs.find? fun v => strStarts v.lang "en") = none) := by
      simp only [pickIndianVoice]
      cases h₁ : vs.find? fun v => v.lang == "en-IN" && isGoogleName v.name <;>
        cases h₂ : vs.find? fun v => v.lang == "en-IN" && isIndianPersonaName v.name <;>
        cases h₃ : vs.find? fun v => v.lang == "en-IN" <;>
        cases h₄ : vs.find? fun v => strStarts v.lang "en" && isGoogleName v.name <;>
        cases h₅ : vs.find? fun v => strStarts v.lang "en" <;>
        simp
    rw [hconj]
    simp only [List.find?_eq_none, voiceRules, List.mem_cons,
      List.not_mem_nil, or_false, Bool.not_eq_true]
    constructor
    · rintro ⟨a₁, a₂, a₃, a₄, a₅⟩ v hv r hr
      rcases hr with rfl | rfl | rfl | rfl | rfl
      · exact a₁ v hv
      · exact a₂ v hv
      · exact a₃ v hv
      · exact a₄ v hv
      · exact a₅ v hv
    · intro h
      exact ⟨fun v hv => h v hv (fun v => v.lang == "en-IN" && isGoogleName v.name)
          (Or.inl rfl),
        fun v hv => h v hv (fun v => v.lang == "en-IN" && isIndianPersonaName v.name)
          (Or.inr (Or.inl rfl)),
        fun v hv => h v hv (fun v => v.lang == "en-IN")
          (Or.inr (Or.inr (Or.inl rfl))),
        fun v hv => h v hv (fun v => strStarts v.lang "en" && isGoogleName v.name)
          (Or.inr (Or.inr (Or.inr (Or.inl rfl)))),
        fun v hv => h v hv (fun v => strStarts v.lang "en")
          (Or.inr (Or.inr (Or.inr (Or.inr rfl))))⟩

/-- Witness for C9 at a concrete catalog. -/
theorem c9_voice_rule_order_witness :
    pickIndianVoice [⟨"en-US", "Samantha"⟩, ⟨"en-IN", "Google India English"⟩] =
      firstRuleMatch voiceRules
        [⟨"en-US", "Samantha"⟩, ⟨"en-IN", "Google India English"⟩] ∧
    pickIndianVoice [] = none :=
  ⟨(c9_voice_rule_order _).1, (c9_voice_rule_order []).2.mpr (by simp)⟩

/-- C8: asynchronous voice resolution resolves exactly once — immediately to
the preferred voice when the catalog is non-empty at call time; to the
preferred voice of the freshly loaded catalog when the `voiceschanged`
notification fires before the 2000 ms timeout; to `null` when the timeout
fires first; and in every schedule that eventually fires the timeout (which
always fires, at 2000 ms) the promise is settled no later than that, so it
never hangs. The resolved value never changes on later events. -/
theorem c8_async_voice_resolution (catalog : List Voice) :
    (catalog ≠ [] →
      ∀ evs, (vrRun (vrInit catalog) evs).result = some (pickIndianVoice catalog)) ∧
    (catalog = [] → ∀ vs rest,
      (vrRun (vrInit catalog) (VREv.voicesChanged vs :: rest)).result =
        some (pickIndianVoice vs)) ∧
    (catalog = [] → ∀ rest,
      (vrRun (vrInit catalog) (VREv.timeout :: rest)).result = some none) ∧
    (∀ pre post,
      (vrRun (vrInit catalog) (pre ++ VREv.timeout :: post)).result ≠ none) := by
  refine ⟨?_, ?_, ?_, ?_⟩
  · intro hne evs
    have hlen : catalog.length > 0 := List.length_pos.mpr hne
    have hinit : vrInit catalog =
        { result := some (pickIndianVoice catalog), handlerOn := false,
          timerOn := false } := by
      simp [vrInit, hlen]
    rw [hinit]
    exact vrRun_settled evs _ rfl
  · intro he vs rest
    subst he
    have h₁ : vrRun (vrInit []) (VREv.voicesChanged vs :: rest) =
        vrRun (vrStep (vrInit []) (.voicesChanged vs)) rest := rfl
    rw [h₁]
    exact vrRun_settled rest _ (by simp [vrInit, vrStep, resolveOnce])
  · intro he rest
    subst he
    have h₁ : vrRun (vrInit []) (VREv.timeout :: rest) =
        vrRun (vrStep (vrInit []) .timeout) rest := rfl
    rw [h₁]
    exact vrRun_settled rest _ (by simp [vrInit, vrStep, resolveOnce])
  · intro pre post
    refine vrRun_timeout_settles pre (vrInit catalog) ?_ post
    by_cases hc : catalog.length > 0
    · left; simp [vrInit, hc]
    · right; simp [vrInit, hc]

/-- Witness for C8 at concrete schedules. -/
theorem c8_async_voice_resolution_witness :
    (vrRun (vrInit [⟨"en-IN", "Heera"⟩]) []).result =
      some (pickIndianVoice [⟨"en-IN", "Heera"⟩]) ∧
    (vrRun (vrInit []) [VREv.voicesChanged [⟨"en-IN", "Heera"⟩]]).result =
      some (pickIndianVoice [⟨"en-IN", "Heera"⟩]) ∧
    (vrRun (vrInit []) [VREv.timeout]).result = some none ∧
    (vrRun (vrInit []) ([] ++ VREv.timeout :: [])).result ≠ none :=
  ⟨((c8_async_voice_resolution _).1 (by simp) []),
   ((c8_async_voice_resolution []).2.1 rfl _ []),
   ((c8_async_voice_resolution []).2.2.1 rfl []),
   ((c8_async_voice_resolution []).2.2.2 [] [])⟩

theorem cancelInst_live (a : Inst) : (cancelInst a).live = false := by
  unfold cancelInst
  split <;> simp_all

theorem cancelInst_progress (a : Inst) : (cancelInst a).progress = a.progress := by
  unfold cancelInst
  split <;> rfl

theorem cancelInst_text (a : Inst) : (cancelInst a).text = a.text := by
  unfold cancelInst
  split <;> rfl

/-- C3 counterexample: an engine error with the unrecognized raw identifier
`"aborted"`, arriving after `start()`, leaves `lastError` equal to `null`
(`none`) — the same value as a session that never had an error — instead of
storing an unknown/other error kind. (The stored kinds of the source's
`STTError` union are `not-allowed`, `no-speech`, `network`, `unsupported`;
the unknown branch of `rec.onerror` executes `setError(null)`.) -/
theorem c3_unknown_error_counterexample :
    (recOnError "aborted" (sttStart false (initSTT true))).error = none ∧
    (recOnError "aborted" (sttStart false (initSTT true))).error =
      (initSTT true).error ∧
    (recOnError "aborted" (sttStart false (initSTT true))).listening = false := by
  refine ⟨?_, ?_, rfl⟩ <;> decide

/-- C3 amended: the error handler maps `"not-allowed"` and
`"permission-denied"` to the permission-denied kind, `"no-speech"` to the
no-speech kind and `"network"` to the network kind, and resets `lastError` to
`null` (no stored kind) for every other raw identifier — it does not store a
distinct unknown/other kind; in every case `listening` becomes `false` and
the interim preview is cleared. In particular a permission-denied engine
error after `start()` yields `listening = false` and `lastError` equal to
the permission-denied kind. -/
theorem c3_error_mapping_amended (s : STTSession) (hsup : s.supported = true)
    (hnl : s.listening = false) (raw : String) :
    (recOnError raw (sttStart false s)).listening = false ∧
    (recOnError raw (sttStart false s)).interim = "" ∧
    ((sttStart false s).listening = true) ∧
    ((raw = "not-allowed" ∨ raw = "permission-denied") →
      (recOnError raw (sttStart false s)).error = some .notAllowed) ∧
    (raw = "no-speech" → (recOnError raw (sttStart false s)).error = some .noSpeech) ∧
    (raw = "network" → (recOnError raw (sttStart false s)).error = some .network) ∧
    (raw ≠ "not-allowed" → raw ≠ "permission-denied" → raw ≠ "no-speech" →
      raw ≠ "network" → (recOnError raw (sttStart false s)).error = none) := by
  have hstart : (sttStart false s).listening = true := by
    simp [sttStart, hsup, hnl]
  refine ⟨rfl, rfl, hstart, ?_, ?_, ?_, ?_⟩
  · rintro (rfl | rfl) <;> simp [recOnError, mapRecError]
  · rintro rfl
    simp [recOnError, mapRecError]
  · rintro rfl
    simp [recOnError, mapRecError]
  · intro h₁ h₂ h₃ h₄
    simp [recOnError, mapRecError, h₁, h₂, h₃, h₄]

/-- Witness for the amended C3 at concrete raw identifiers. -/
theorem c3_error_mapping_amended_witness :
    (recOnError "permission-denied" (sttStart false (initSTT true))).error =
      some .notAllowed ∧
    (recOnError "permission-denied" (sttStart false (initSTT true))).listening =
      false ∧
    (recOnError "network" (sttStart false (initSTT true))).error = some .network ∧
    (recOnError "audio-capture" (sttStart false (initSTT true))).error = none :=
  ⟨(c3_error_mapping_amended (initSTT true) rfl rfl "permission-denied").2.2.2.1
      (Or.inr rfl),
   (c3_error_mapping_amended (initSTT true) rfl rfl "permission-denied").1,
   (c3_error_mapping_amended (initSTT true) rfl rfl "network").2.2.2.2.2.1 rfl,
   (c3_error_mapping_amended (initSTT true) rfl rfl "audio-capture").2.2.2.2.2.2
      (by decide) (by decide) (by decide) (by decide)⟩

/-- C5 counterexample: a result batch whose interim entries concatenate to
the empty string (here a single interim entry with an empty transcript) is
NOT published as the live preview — the previous preview (`"hello"`) is left
in place rather than being replaced by the batch's (empty) interim
concatenation. The finalized-empty suppression part behaves as claimed (no
delivery). -/
theorem c5_interim_publish_counterexample :
    concatInterim [⟨"", false⟩] = "" ∧
    (recOnResult [⟨"", false⟩]
        { listening := true, interim := "hello", error := none,
          supported := true }).1.interim = "hello" ∧
    ("hello" : String) ≠ "" ∧
    (recOnResult [⟨"", false⟩]
        { listening := true, interim := "hello", error := none,
          supported := true }).2 = none := by
  refine ⟨?_, ?_, ?_, ?_⟩ <;> decide

/-- C5 amended: per result batch, the interim concatenation is published as
the live preview only when it is non-empty (an empty interim concatenation
leaves the preview unchanged); the finalized concatenation, after trimming,
is delivered to the consumer callback exactly when it is non-empty, after
which the preview is cleared; when the trimmed finalized text is empty the
callback is not invoked. -/
theorem c5_onresult_amended (s : STTSession) (rs : List RecEntry) :
    (jsTrim (concatFinal rs) ≠ "" →
      (recOnResult rs s).2 = some (jsTrim (concatFinal rs)) ∧
      (recOnResult rs s).1.interim = "") ∧
    (jsTrim (concatFinal rs) = "" →
      (recOnResult rs s).2 = none ∧
      (recOnResult rs s).1.interim =
        (if concatInterim rs ≠ "" then concatInterim rs else s.interim)) := by
  constructor
  · intro hf
    constructor <;> simp [recOnResult, hf]
  · intro hf
    by_cases hi : concatInterim rs ≠ "" <;> simp [recOnResult, hf, hi]

/-- Witness for the amended C5 at concrete batches. -/
theorem c5_onresult_amended_witness :
    ((recOnResult [⟨"par", false⟩, ⟨" hi ", true⟩] (initSTT true)).2 =
      some (jsTrim (concatFinal [⟨"par", false⟩, ⟨" hi ", true⟩]))) ∧
    ((recOnResult [⟨"par", false⟩, ⟨" hi ", true⟩] (initSTT true)).1.interim = "") ∧
    ((recOnResult [⟨"  ", true⟩] (initSTT true)).2 = none) :=
  ⟨((c5_onresult_amended (initSTT true) [⟨"par", false⟩, ⟨" hi ", true⟩]).1
      (by decide)).1,
   ((c5_onresult_amended (initSTT true) [⟨"par", false⟩, ⟨" hi ", true⟩]).1
      (by decide)).2,
   ((c5_onresult_amended (initSTT true) [⟨"  ", true⟩]).2 (by decide)).1⟩

/-- C4 counterexample: `pause()` on an `Idle` session is not a no-op — it
moves the session to `Paused`. -/
theorem c4_pause_counterexample :
    ((initSys (fun _ : Fin 1 => "t")).insts 0).tstate = TTSState.idle ∧
    ((pauseStep (initSys (fun _ : Fin 1 => "t")) 0).insts 0).tstate =
      TTSState.paused ∧
    TTSState.paused ≠ TTSState.idle := by
  refine ⟨rfl, rfl, ?_⟩
  decide

/-- C4 amended: `pause()` always instructs the engine to pause and sets the
session state to `Paused`, whatever the current state is (so it does what
the claim says while `Playing`, but from any other state it is not a no-op);
it touches nothing else — progress, text, live utterance and other instances
are unchanged. -/
theorem c4_pause_amended {n : Nat} (s : Sys n) (i : Fin n) :
    ((pauseStep s i).insts i).tstate = .paused ∧
    (pauseStep s i).enginePaused = true ∧
    ((pauseStep s i).insts i).progress = (s.insts i).progress ∧
    ((pauseStep s i).insts i).text = (s.insts i).text ∧
    ((pauseStep s i).insts i).live = (s.insts i).live ∧
    (∀ j, j ≠ i → (pauseStep s i).insts j = s.insts j) := by
  refine ⟨?_, rfl, ?_, ?_, ?_, ?_⟩
  · simp [pauseStep, upd]
  · simp [pauseStep, upd]
  · simp [pauseStep, upd]
  · simp [pauseStep, upd]
  · intro j hj
    simp [pauseStep, upd, hj]

/-- Witness for the amended C4: pausing instance 0 of a two-instance process
from the initial (idle) state. -/
theorem c4_pause_amended_witness :
    ((pauseStep (initSys (fun _ : Fin 2 => "t")) 0).insts 0).tstate =
      TTSState.paused ∧
    (pauseStep (initSys (fun _ : Fin 2 => "t")) 0).insts 1 =
      (initSys (fun _ : Fin 2 => "t")).insts 1 :=
  ⟨(c4_pause_amended (initSys (fun _ : Fin 2 => "t")) 0).1,
   (c4_pause_amended (initSys (fun _ : Fin 2 => "t")) 0).2.2.2.2.2 1 (by decide)⟩

/-- C6: from any state, `replay()` first cancels all speech in the process
(every live utterance is gone and the instance is reset to `Idle` with
progress 0), and after the settle timer fires and the voice promise resolves
the bound text is re-synthesized from the beginning: the session ends in
state `Playing` with progress 0 and a fresh word counter. -/
theorem c6_replay_resets {n : Nat} (s : Sys n) (i : Fin n) :
    (((replayStep s i).insts i).tstate = .idle ∧
     ((replayStep s i).insts i).progress = 0 ∧
     (∀ j, ((replayStep s i).insts j).live = false)) ∧
    (((resolveStep (timerStep (replayStep s i) i) i).insts i).tstate = .playing ∧
     ((resolveStep (timerStep (replayStep s i) i) i).insts i).progress = 0 ∧
     ((resolveStep (timerStep (replayStep s i) i) i).insts i).wordIdx = 0 ∧
     ((resolveStep (timerStep (replayStep s i) i) i).insts i).words =
       jsWordCount ((s.insts i).text)) := by
  have h₁ : (replayStep s i).insts i =
      { cancelInst (s.insts i) with
        tstate := .idle, progress := 0, timerSet := true } := by
    simp [replayStep, upd, globalStopS]
  have htimer : timerStep (replayStep s i) i =
      speakPhase (upd (replayStep s i) i fun a => { a with timerSet := false }) i
        ((replayStep s i).insts i).text := by
    rw [timerStep, if_pos]
    rw [h₁]
  have htext : ((replayStep s i).insts i).text = (s.insts i).text := by
    rw [h₁]
    simp [cancelInst_text]
  refine ⟨⟨by rw [h₁], by rw [h₁], ?_⟩, ?_⟩
  · intro j
    by_cases hj : j = i
    · subst hj; rw [h₁]; simp [cancelInst_live]
    · have : (replayStep s i).insts j = cancelInst (s.insts j) := by
        simp [replayStep, upd, globalStopS, hj]
      rw [this, cancelInst_live]
  · rw [htimer, htext]
    have hmid : (speakPhase (upd (replayStep s i) i fun a =>
        { a with timerSet := false }) i ((s.insts i).text)).insts i =
        { cancelInst { (replayStep s i).insts i with timerSet := false } with
          pendingSpeak := some ((s.insts i).text) } := by
      simp [speakPhase, upd, globalStopS]
    have hpend : ((speakPhase (upd (replayStep s i) i fun a =>
        { a with timerSet := false }) i ((s.insts i).text)).insts i).pendingSpeak
        = some ((s.insts i).text) := by
      rw [hmid]
    rw [resolveStep, hpend]
    have hprog : ((speakPhase (upd (replayStep s i) i fun a =>
        { a with timerSet := false }) i ((s.insts i).text)).insts i).progress
        = 0 := by
      rw [hmid, cancelInst_progress]
      rw [h₁]
    refine ⟨by simp [upd], ?_, by simp [upd], by simp [upd]⟩
    simpa [upd] using hprog

/-- Witness for C6: replaying instance 0 of a freshly mounted two-instance
process. -/
theorem c6_replay_resets_witness :
    ((resolveStep (timerStep (replayStep (initSys fun _ : Fin 2 => "a b") 0) 0)
        0).insts 0).tstate = TTSState.playing ∧
    ((resolveStep (timerStep (replayStep (initSys fun _ : Fin 2 => "a b") 0) 0)
        0).insts 0).progress = 0 :=
  ⟨(c6_replay_resets (initSys fun _ : Fin 2 => "a b") 0).2.1,
   (c6_replay_resets (initSys fun _ : Fin 2 => "a b") 0).2.2.1⟩

/-- C7: `play()` with empty bound text is a no-op from any state (including
`Paused`); with non-empty bound text it resumes the engine from `Paused` and
returns to `Playing` without re-synthesizing (the live utterance, its word
counter and the pending-speak slot are untouched, no voice resolution is
started); and from any non-`Paused` state with non-empty bound text it
behaves exactly like `speak()` on the currently bound text. -/
theorem c7_play_resume_or_speak {n : Nat} (s : Sys n) (i : Fin n) :
    ((s.insts i).text = "" → playStep s i = s) ∧
    ((s.insts i).text ≠ "" → (s.insts i).tstate = .paused →
      ((playStep s i).insts i).tstate = .playing ∧
      (playStep s i).enginePaused = false ∧
      ((playStep s i).insts i).live = (s.insts i).live ∧
      ((playStep s i).insts i).wordIdx = (s.insts i).wordIdx ∧
      ((playStep s i).insts i).words = (s.insts i).words ∧
      ((playStep s i).insts i).pendingSpeak = (s.insts i).pendingSpeak ∧
      ((playStep s i).insts i).progress = (s.insts i).progress) ∧
    ((s.insts i).text ≠ "" → (s.insts i).tstate ≠ .paused →
      playStep s i = speakStep s i ((s.insts i).text)) := by
  refine ⟨?_, ?_, ?_⟩
  · intro he
    simp [playStep, he]
  · intro hne hp
    refine ⟨?_, ?_, ?_, ?_, ?_, ?_, ?_⟩ <;> simp [playStep, hne, hp, upd]
  · intro hne hp
    rw [playStep, if_neg (by simpa using hne), if_neg hp, speakStep,
      if_neg (by simpa using hne)]

/-- Witness for C7: the no-op on empty text, the pause/resume path, and the
speak-like path, each at a concrete process. -/
theorem c7_play_resume_or_speak_witness :
    (playStep (initSys fun _ : Fin 1 => "") 0 = initSys (fun _ : Fin 1 => "") ∧
     ((playStep (pauseStep (initSys fun _ : Fin 1 => "hi") 0) 0).insts 0).tstate =
       TTSState.playing ∧
     (playStep (pauseStep (initSys fun _ : Fin 1 => "hi") 0) 0).enginePaused =
       false) ∧
    playStep (initSys fun _ : Fin 1 => "hi") 0 =
      speakStep (initSys fun _ : Fin 1 => "hi") 0 "hi" :=
  ⟨⟨(c7_play_resume_or_speak (initSys fun _ : Fin 1 => "") 0).1 rfl,
    ((c7_play_resume_or_speak (pauseStep (initSys fun _ : Fin 1 => "hi") 0)
        0).2.1 (by decide) (by decide)).1,
    ((c7_play_resume_or_speak (pauseStep (initSys fun _ : Fin 1 => "hi") 0)
        0).2.1 (by decide) (by decide)).2.1⟩,
   (c7_play_resume_or_speak (initSys fun _ : Fin 1 => "hi") 0).2.2
     (by decide) (by decide)⟩

/-! ### C2: progress within one speak session -/

theorem instBoundary_words (a : Inst) : (instBoundary a).words = a.words := rfl

theorem instBoundary_live (a : Inst) : (instBoundary a).live = a.live := rfl

theorem instBoundary_tstate (a : Inst) : (instBoundary a).tstate = a.tstate := rfl

theorem instBoundary_iter_words (a : Inst) (k : Nat) :
    (instBoundary^[k] a).words = a.words := by
  induction k with
  | zero => rfl
  | succ k ih => rw [Function.iterate_succ_apply', instBoundary_words, ih]

theorem instBoundary_iter_wordIdx (a : Inst) (k : Nat) :
    (instBoundary^[k] a).wordIdx = a.wordIdx + k := by
  induction k with
  | zero => rfl
  | succ k ih =>
    rw [Function.iterate_succ_apply']
    show (instBoundary^[k] a).wordIdx + 1 = a.wordIdx + (k + 1)
    omega

theorem instBoundary_iter_live (a : Inst) (k : Nat) :
    (instBoundary^[k] a).live = a.live := by
  induction k with
  | zero => rfl
  | succ k ih => rw [Function.iterate_succ_apply', instBoundary_live, ih]

theorem instBoundary_iter_tstate (a : Inst) (k : Nat) :
    (instBoundary^[k] a).tstate = a.tstate := by
  induction k with
  | zero => rfl
  | succ k ih => rw [Function.iterate_succ_apply', instBoundary_tstate, ih]

theorem instBoundary_iter_progress (a : Inst) (k : Nat) (hk : 1 ≤ k) :
    (instBoundary^[k] a).progress = boundaryProgress (a.wordIdx + k) a.words := by
  induction k with
  | zero => omega
  | succ k ih =>
    rw [Function.iterate_succ_apply']
    show boundaryProgress ((instBoundary^[k] a).wordIdx + 1)
        ((instBoundary^[k] a).words) = _
    rw [instBoundary_iter_wordIdx, instBoundary_iter_words, Nat.add_assoc]

/-- Word-boundary events on a live utterance iterate the per-instance
boundary body, other instances untouched. -/
theorem run_boundaries {n : Nat} (k : Nat) :
    ∀ (s : Sys n) (i : Fin n), (s.insts i).live = true →
      (run s (List.replicate k (Ev.boundary i))).insts i =
        instBoundary^[k] (s.insts i) := by
  induction k with
  | zero => intro s i _; rfl
  | succ k ih =>
    intro s i hl
    have h₁ : run s (List.replicate (k + 1) (Ev.boundary i)) =
        run (boundaryStep s i) (List.replicate k (Ev.boundary i)) := by
      rw [List.replicate_succ]; rfl
    have h₂ : boundaryStep s i = upd s i instBoundary := by
      rw [boundaryStep, if_pos hl]
    have h₃ : (upd s i instBoundary).insts i = instBoundary (s.insts i) :=
      upd_insts_self ..
    rw [h₁, h₂, ih _ i (by rw [h₃, instBoundary_live]; exact hl), h₃,
      ← Function.iterate_succ_apply]

/-- C2 counterexample: the claim fails for a speak session that follows a
completed one on the same controller. `speak("w")` runs to completion
(progress 100, state `done`); a second `speak("a b c")` session then starts
while progress is still 100 (the source's `doSpeak` never resets progress),
so inside the new session progress is NOT strictly below 100 before any
completion callback, and the first word boundary then writes
`min(99, round(1/3·100)) = 33 < 100`, so progress also decreases within the
session. -/
theorem c2_progress_counterexample :
    (((run (initSys fun _ : Fin 1 => "w")
        [.speakCall 0 "w", .resolveV 0, .endEv 0,
         .speakCall 0 "a b c", .resolveV 0]).insts 0).tstate =
      TTSState.playing) ∧
    (((run (initSys fun _ : Fin 1 => "w")
        [.speakCall 0 "w", .resolveV 0, .endEv 0,
         .speakCall 0 "a b c", .resolveV 0]).insts 0).progress = 100) ∧
    (((run (initSys fun _ : Fin 1 => "w")
        [.speakCall 0 "w", .resolveV 0, .endEv 0,
         .speakCall 0 "a b c", .resolveV 0, .boundary 0]).insts 0).progress =
      33) ∧ (33 : Nat) < 100 := by
  refine ⟨rfl, rfl, rfl, ?_⟩
  decide

/-- C2 amended: within one speak session (started by the `doSpeak`
continuation consuming the pending text `t`), the `k`-th word-boundary event
writes `min(99, round(k / totalWordCount · 100))` with
`totalWordCount = jsWordCount t` (the spoken text split on whitespace); these
boundary writes are non-decreasing in `k` and strictly below 100, the state
stays `Playing`, and the completion callback sets progress to exactly 100 and
state to `Done`. (Before the first boundary write the session still shows the
progress value inherited from the previous session, which can be 100 — the
source never resets progress on a plain `speak`.) -/
theorem c2_progress_amended {n : Nat} (s : Sys n) (i : Fin n) (t : String)
    (k : Nat) (hp : (s.insts i).pendingSpeak = some t) :
    (1 ≤ k →
      ((run (resolveStep s i) (List.replicate k (Ev.boundary i))).insts i).progress =
        boundaryProgress k (jsWordCount t)) ∧
    (1 ≤ k →
      ((run (resolveStep s i) (List.replicate k (Ev.boundary i))).insts i).progress
        < 100) ∧
    (∀ k', k ≤ k' →
      boundaryProgress k (jsWordCount t) ≤ boundaryProgress k' (jsWordCount t)) ∧
    ((run (resolveStep s i) (List.replicate k (Ev.boundary i))).insts i).tstate =
      TTSState.playing ∧
    ((endStep (run (resolveStep s i) (List.replicate k (Ev.boundary i))) i).insts
      i).progress = 100 ∧
    ((endStep (run (resolveStep s i) (List.replicate k (Ev.boundary i))) i).insts
      i).tstate = TTSState.done := by
  have hres : (resolveStep s i).insts i =
      { s.insts i with
        pendingSpeak := none, live := true, tstate := .playing,
        words := jsWordCount t, wordIdx := 0 } := by
    rw [resolveStep, hp, upd_insts_self]
  have hlive : ((resolveStep s i).insts i).live = true := by rw [hres]
  have hrun : (run (resolveStep s i) (List.replicate k (Ev.boundary i))).insts i =
      instBoundary^[k] ((resolveStep s i).insts i) :=
    run_boundaries k _ i hlive
  have hklive : ((run (resolveStep s i)
      (List.replicate k (Ev.boundary i))).insts i).live = true := by
    rw [hrun, instBoundary_iter_live]; exact hlive
  have hend : (endStep (run (resolveStep s i)
      (List.replicate k (Ev.boundary i))) i).insts i =
      instEnd ((run (resolveStep s i) (List.replicate k (Ev.boundary i))).insts
        i) := by
    rw [endStep, if_pos hklive, upd_insts_self]
  refine ⟨?_, ?_, ?_, ?_, ?_, ?_⟩
  · intro hk
    rw [hrun, instBoundary_iter_progress _ k hk, hres]
    simp
  · intro hk
    rw [hrun, instBoundary_iter_progress _ k hk, hres]
    simpa using boundaryProgress_lt_100 k (jsWordCount t)
  · intro k' hk'
    exact boundaryProgress_mono _ hk'
  · rw [hrun, instBoundary_iter_tstate, hres]
  · rw [hend]
    rfl
  · rw [hend]
    rfl

/-- Witness for the amended C2: a session over `"a b"` (2 words) after one
boundary event shows 50, below 100; completion then shows exactly 100 and
`done`. -/
theorem c2_progress_amended_witness :
    ((run (resolveStep (speakStep (initSys fun _ : Fin 1 => "a b") 0 "a b") 0)
        (List.replicate 1 (Ev.boundary 0))).insts 0).progress =
      boundaryProgress 1 (jsWordCount "a b") ∧
    ((run (resolveStep (speakStep (initSys fun _ : Fin 1 => "a b") 0 "a b") 0)
        (List.replicate 1 (Ev.boundary 0))).insts 0).progress < 100 ∧
    ((endStep (run (resolveStep (speakStep (initSys fun _ : Fin 1 => "a b") 0
        "a b") 0) (List.replicate 1 (Ev.boundary 0))) 0).insts 0).progress =
      100 :=
  ⟨((c2_progress_amended (speakStep (initSys fun _ : Fin 1 => "a b") 0 "a b") 0
      "a b" 1 (by decide)).1 (by decide)),
   ((c2_progress_amended (speakStep (initSys fun _ : Fin 1 => "a b") 0 "a b") 0
      "a b" 1 (by decide)).2.1 (by decide)),
   (c2_progress_amended (speakStep (initSys fun _ : Fin 1 => "a b") 0 "a b") 0
      "a b" 1 (by decide)).2.2.2.2.1⟩

/-! ### C10: progress stays in 0..100 and the word count is never zero -/

theorem cancelInst_words (a : Inst) : (cancelInst a).words = a.words := by
  unfold cancelInst
  split <;> rfl

theorem progressInv_upd {n : Nat} {s : Sys n} {i : Fin n} {f : Inst → Inst}
    (h : ProgressInv s)
    (hf : (f (s.insts i)).progress ≤ 100 ∧ 1 ≤ (f (s.insts i)).words) :
    ProgressInv (upd s i f) := by
  intro j
  by_cases hj : j = i
  · subst hj; rw [upd_insts_self]; exact hf
  · rw [upd_insts_ne _ _ hj]; exact h j

theorem progressInv_globalStop {n : Nat} {s : Sys n} (h : ProgressInv s) :
    ProgressInv (globalStopS s) := by
  intro j
  have := h j
  simpa [globalStopS, cancelInst_progress, cancelInst_words] using this

theorem progressInv_step {n : Nat} (s : Sys n) (e : Ev n) (h : ProgressInv s) :
    ProgressInv (step s e) := by
  cases e with
  | speakCall i t =>
    by_cases ht : t = ""
    · simpa [step, speakStep, ht] using h
    · show ProgressInv (speakStep s i t)
      rw [speakStep, if_neg ht, speakPhase]
      refine progressInv_upd (progressInv_globalStop h) ?_
      have := (progressInv_globalStop h) i
      simpa using this
  | resolveV i =>
    show ProgressInv (resolveStep s i)
    rw [resolveStep]
    rcases hp : (s.insts i).pendingSpeak with _ | t
    · exact h
    · refine progressInv_upd h ?_
      exact ⟨(h i).1, jsWordCount_pos t⟩
  | playCall i =>
    show ProgressInv (playStep s i)
    rw [playStep]
    by_cases h₁ : (s.insts i).text = ""
    · rw [if_pos h₁]; exact h
    · rw [if_neg h₁]
      by_cases h₂ : (s.insts i).tstate = TTSState.paused
      · rw [if_pos h₂]
        intro j
        have := progressInv_upd (f := fun a => { a with tstate := .playing }) h
          (by simpa using h i) j
        simpa using this
      · rw [if_neg h₂, speakPhase]
        refine progressInv_upd (progressInv_globalStop h) ?_
        have := (progressInv_globalStop h) i
        simpa using this
  | pauseCall i =>
    show ProgressInv (pauseStep s i)
    intro j
    have := progressInv_upd (f := fun a => { a with tstate := .paused }) h
      (by simpa using h i) j
    simpa [pauseStep] using this
  | replayCall i =>
    show ProgressInv (replayStep s i)
    rw [replayStep]
    refine progressInv_upd (progressInv_globalStop h) ⟨by simp, ?_⟩
    simpa using ((progressInv_globalStop h) i).2
  | timerFire i =>
    show ProgressInv (timerStep s i)
    rw [timerStep]
    by_cases ht : (s.insts i).timerSet = true
    · rw [if_pos ht, speakPhase]
      have h₁ : ProgressInv (upd s i fun a => { a with timerSet := false }) :=
        progressInv_upd h (by simpa using h i)
      refine progressInv_upd (progressInv_globalStop h₁) ?_
      have := (progressInv_globalStop h₁) i
      simpa using this
    · rw [if_neg ht]; exact h
  | stopCall i =>
    show ProgressInv (stopStep s i)
    rw [stopStep]
    refine progressInv_upd (progressInv_globalStop h) ⟨by simp, ?_⟩
    simpa using ((progressInv_globalStop h) i).2
  | textChange i t =>
    show ProgressInv (textChangeStep s i t)
    rw [textChangeStep]
    refine progressInv_upd (progressInv_globalStop h) ⟨by simp, ?_⟩
    simpa using ((progressInv_globalStop h) i).2
  | boundary i =>
    show ProgressInv (boundaryStep s i)
    rw [boundaryStep]
    by_cases hl : (s.insts i).live = true
    · rw [if_pos hl]
      refine progressInv_upd h ?_
      refine ⟨?_, (h i).2⟩
      show boundaryProgress ((s.insts i).wordIdx + 1) ((s.insts i).words) ≤ 100
      exact le_of_lt (boundaryProgress_lt_100 ..)
    · rw [if_neg hl]; exact h
  | endEv i =>
    show ProgressInv (endStep s i)
    rw [endStep]
    by_cases hl : (s.insts i).live = true
    · rw [if_pos hl]
      exact progressInv_upd h ⟨le_refl 100, (h i).2⟩
    · rw [if_neg hl]; exact h
  | errEv i =>
    show ProgressInv (errStep s i)
    rw [errStep]
    by_cases hl : (s.insts i).live = true
    · rw [if_pos hl]
      exact progressInv_upd h (by simpa [instErr] using h i)
    · rw [if_neg hl]; exact h

theorem progressInv_run {n : Nat} (evs : List (Ev n)) :
    ∀ s : Sys n, ProgressInv s → ProgressInv (run s evs) := by
  induction evs with
  | nil => intro s h; exact h
  | cons e rest ih =>
    intro s h
    exact ih (step s e) (progressInv_step s e h)

/-- C10: over every sequence of public controller operations and engine
callbacks from a freshly mounted process, every instance's `progress` stays
an integer in 0..100 (`progress` is a `Nat`, so the lower bound is
intrinsic), and its word-count denominator `words` stays at least 1 — so the
boundary computation never divides by zero, each boundary write
`min(99, round(k / words · 100))` lies in 0..99, and the only other writes
are 0 and 100. -/
theorem c10_progress_range {n : Nat} (texts : Fin n → String)
    (evs : List (Ev n)) (j : Fin n) :
    ((run (initSys texts) evs).insts j).progress ≤ 100 ∧
    1 ≤ ((run (initSys texts) evs).insts j).words ∧
    (∀ k t, boundaryProgress k (jsWordCount t) ≤ 99) := by
  have hinit : ProgressInv (initSys texts) := by
    intro j
    constructor <;> simp [initSys, initInst]
  have := progressInv_run evs (initSys texts) hinit j
  exact ⟨this.1, this.2, fun k t => boundaryProgress_le_99 ..⟩

/-- Witness for C10 at a concrete trace exercising speak, boundary,
completion, pause, play and replay. -/
theorem c10_progress_range_witness :
    ((run (initSys fun _ : Fin 2 => "a b c")
        [.speakCall 0 "a b c", .resolveV 0, .boundary 0, .pauseCall 0,
         .playCall 0, .boundary 0, .endEv 0, .replayCall 1,
         .timerFire 1, .resolveV 1]).insts 0).progress ≤ 100 ∧
    1 ≤ ((run (initSys fun _ : Fin 2 => "a b c")
        [.speakCall 0 "a b c", .resolveV 0, .boundary 0, .pauseCall 0,
         .playCall 0, .boundary 0, .endEv 0, .replayCall 1,
         .timerFire 1, .resolveV 1]).insts 0).words :=
  ⟨(c10_progress_range (fun _ : Fin 2 => "a b c") _ 0).1,
   (c10_progress_range (fun _ : Fin 2 => "a b c") _ 0).2.1⟩

/-! ### C1: the single-speaker invariant -/

theorem cancelInst_pendingSpeak (a : Inst) :
    (cancelInst a).pendingSpeak = a.pendingSpeak := by
  unfold cancelInst
  split <;> rfl

theorem cancelInst_timerSet (a : Inst) :
    (cancelInst a).timerSet = a.timerSet := by
  unfold cancelInst
  split <;> rfl

/-- Cancelling silences: provided the instance only claims to be active while
its utterance is live, it is not active after the cancel. -/
theorem cancelInst_not_active (a : Inst) (h : isActive a → a.live = true) :
    ¬ isActive (cancelInst a) := by
  intro ha
  by_cases hl : a.live = true
  · rw [cancelInst, if_pos hl] at ha
    rcases ha with h₁ | h₁ <;> simp at h₁
  · rw [cancelInst, if_neg hl] at ha
    exact hl (h ha)

theorem globalStopS_insts {n : Nat} (s : Sys n) (j : Fin n) :
    (globalStopS s).insts j = cancelInst (s.insts j) := rfl

/-- The activation core: `_speak`'s synchronous stop followed by its
`doSpeak` continuation re-establishes the invariant, with `i` the only
active/live instance. -/
theorem c1Inv_activate {n : Nat} (s : Sys n) (i : Fin n) (t : String)
    (h : C1Inv s) : C1Inv (resolveStep (speakPhase s i t) i) := by
  obtain ⟨-, -, h₃, h₄⟩ := h
  have hpend : ((speakPhase s i t).insts i).pendingSpeak = some t := by
    rw [speakPhase, upd_insts_self]
  have hform : ∀ j : Fin n,
      (resolveStep (speakPhase s i t) i).insts j =
        if j = i then
          { cancelInst (s.insts i) with
            pendingSpeak := none, live := true, tstate := .playing,
            words := jsWordCount t, wordIdx := 0 }
        else cancelInst (s.insts j) := by
    intro j
    rw [resolveStep, hpend]
    by_cases hj : j = i
    · subst hj
      rw [upd_insts_self, if_pos rfl, speakPhase, upd_insts_self]
      rfl
    · rw [upd_insts_ne _ _ hj, if_neg hj, speakPhase, upd_insts_ne _ _ hj]
      rfl
  have hactive : ∀ j : Fin n,
      isActive ((resolveStep (speakPhase s i t) i).insts j) → j = i := by
    intro j hj
    by_cases hji : j = i
    · exact hji
    · rw [hform j, if_neg hji] at hj
      exact absurd hj (cancelInst_not_active _ (h₃ j))
  have hlive : ∀ j : Fin n,
      ((resolveStep (speakPhase s i t) i).insts j).live = true → j = i := by
    intro j hj
    by_cases hji : j = i
    · exact hji
    · rw [hform j, if_neg hji, cancelInst_live] at hj
      exact absurd hj (by simp)
  refine ⟨fun j k hj hk => (hactive j hj).trans (hactive k hk).symm,
    fun j k hj hk => (hlive j hj).trans (hlive k hk).symm, ?_, ?_⟩
  · intro j hj
    have := hactive j hj
    subst this
    rw [hform j, if_pos rfl]
  · intro j
    by_cases hj : j = i
    · subst hj
      rw [hform j, if_pos rfl]
      refine ⟨rfl, ?_⟩
      show (cancelInst (s.insts j)).timerSet = false
      rw [cancelInst_timerSet]
      exact (h₄ j).2
    · rw [hform j, if_neg hj, cancelInst_pendingSpeak, cancelInst_timerSet]
      exact h₄ j

/-- A system whose instances are all silenced, unpending and timer-free
satisfies the invariant. -/
theorem c1Inv_of_silent {n : Nat} (s : Sys n)
    (h : ∀ j : Fin n, ¬ isActive (s.insts j) ∧ (s.insts j).live = false ∧
      (s.insts j).pendingSpeak = none ∧ (s.insts j).timerSet = false) :
    C1Inv s :=
  ⟨fun j _ hj => absurd hj (h j).1,
   fun j _ hj => absurd hj (by rw [(h j).2.1]; simp),
   fun j hj => absurd hj (h j).1,
   fun j => (h j).2.2⟩

theorem c1Inv_sopRun {n : Nat} (s : Sys n) (op : SOp n) (h : C1Inv s) :
    C1Inv (sopRun s op) := by
  obtain ⟨h₁, h₂, h₃, h₄⟩ := h
  cases op with
  | speak i t =>
    show C1Inv (resolveStep (speakStep s i t) i)
    by_cases ht : t = ""
    · rw [speakStep, if_pos ht, resolveStep, (h₄ i).1]
      exact ⟨h₁, h₂, h₃, h₄⟩
    · rw [speakStep, if_neg ht]
      exact c1Inv_activate s i t ⟨h₁, h₂, h₃, h₄⟩
  | replay i =>
    show C1Inv (resolveStep (timerStep (replayStep s i) i) i)
    have hri : (replayStep s i).insts i =
        { cancelInst (s.insts i) with
          tstate := .idle, progress := 0, timerSet := true } := by
      rw [replayStep, upd_insts_self]
      rfl
    have htrue : ((replayStep s i).insts i).timerSet = true := by rw [hri]
    have htext : ((replayStep s i).insts i).text = (s.insts i).text := by
      rw [hri]
      show (cancelInst (s.insts i)).text = _
      exact cancelInst_text _
    rw [timerStep, if_pos htrue]
    refine c1Inv_activate _ i _ (c1Inv_of_silent _ ?_)
    intro j
    by_cases hj : j = i
    · subst hj
      rw [upd_insts_self, hri]
      refine ⟨?_, ?_, ?_, rfl⟩
      · intro ha
        rcases ha with ha | ha <;> simp at ha
      · show (cancelInst (s.insts j)).live = false
        exact cancelInst_live _
      · show (cancelInst (s.insts j)).pendingSpeak = none
        rw [cancelInst_pendingSpeak]
        exact (h₄ j).1
    · rw [upd_insts_ne _ _ hj, replayStep, upd_insts_ne _ _ hj,
        globalStopS_insts]
      refine ⟨cancelInst_not_active _ (h₃ j), cancelInst_live _, ?_, ?_⟩
      · rw [cancelInst_pendingSpeak]; exact (h₄ j).1
      · rw [cancelInst_timerSet]; exact (h₄ j).2
  | stop i =>
    show C1Inv (stopStep s i)
    refine c1Inv_of_silent _ ?_
    intro j
    by_cases hj : j = i
    · subst hj
      rw [stopStep, upd_insts_self]
      refine ⟨?_, ?_, ?_, ?_⟩
      · intro ha; rcases ha with ha | ha <;> simp at ha
      · show (cancelInst (s.insts j)).live = false
        exact cancelInst_live _
      · show (cancelInst (s.insts j)).pendingSpeak = none
        rw [cancelInst_pendingSpeak]; exact (h₄ j).1
      · show (cancelInst (s.insts j)).timerSet = false
        rw [cancelInst_timerSet]; exact (h₄ j).2
    · rw [stopStep, upd_insts_ne _ _ hj, globalStopS_insts]
      refine ⟨cancelInst_not_active _ (h₃ j), cancelInst_live _, ?_, ?_⟩
      · rw [cancelInst_pendingSpeak]; exact (h₄ j).1
      · rw [cancelInst_timerSet]; exact (h₄ j).2
  | boundary i =>
    show C1Inv (boundaryStep s i)
    rw [boundaryStep]
    by_cases hl : (s.insts i).live = true
    swap
    · rw [if_neg hl]; exact ⟨h₁, h₂, h₃, h₄⟩
    rw [if_pos hl]
    have hsame : ∀ j : Fin n,
        ((upd s i instBoundary).insts j).tstate = (s.insts j).tstate ∧
        ((upd s i instBoundary).insts j).live = (s.insts j).live ∧
        ((upd s i instBoundary).insts j).pendingSpeak =
          (s.insts j).pendingSpeak ∧
        ((upd s i instBoundary).insts j).timerSet = (s.insts j).timerSet := by
      intro j
      by_cases hj : j = i
      · subst hj; rw [upd_insts_self]; exact ⟨rfl, rfl, rfl, rfl⟩
      · rw [upd_insts_ne _ _ hj]; exact ⟨rfl, rfl, rfl, rfl⟩
    have hact : ∀ j : Fin n,
        isActive ((upd s i instBoundary).insts j) ↔ isActive (s.insts j) := by
      intro j
      unfold isActive
      rw [(hsame j).1]
    refine ⟨fun j k hj hk => h₁ j k ((hact j).mp hj) ((hact k).mp hk),
      fun j k hj hk => h₂ j k ((hsame j).2.1 ▸ hj) ((hsame k).2.1 ▸ hk),
      fun j hj => by rw [(hsame j).2.1]; exact h₃ j ((hact j).mp hj),
      fun j => by rw [(hsame j).2.2.1, (hsame j).2.2.2]; exact h₄ j⟩
  | endE i =>
    show C1Inv (endStep s i)
    rw [endStep]
    by_cases hl : (s.insts i).live = true
    swap
    · rw [if_neg hl]; exact ⟨h₁, h₂, h₃, h₄⟩
    rw [if_pos hl]
    have hne : ∀ j : Fin n, j ≠ i →
        (upd s i instEnd).insts j = s.insts j :=
      fun j hj => upd_insts_ne _ _ hj
    have hi : (upd s i instEnd).insts i = instEnd (s.insts i) :=
      upd_insts_self ..
    have hnotact : ∀ j : Fin n,
        isActive ((upd s i instEnd).insts j) → j ≠ i := by
      intro j hj hji
      subst hji
      rw [hi] at hj
      rcases hj with hj | hj <;> simp [instEnd] at hj
    have hnotlive : ∀ j : Fin n,
        ((upd s i instEnd).insts j).live = true → j ≠ i := by
      intro j hj hji
      subst hji
      rw [hi] at hj
      simp [instEnd] at hj
    refine ⟨?_, ?_, ?_, ?_⟩
    · intro j k hj hk
      have hjne := hnotact j hj
      have hkne := hnotact k hk
      rw [hne j hjne] at hj
      rw [hne k hkne] at hk
      exact h₁ j k hj hk
    · intro j k hj hk
      have hjne := hnotlive j hj
      have hkne := hnotlive k hk
      rw [hne j hjne] at hj
      rw [hne k hkne] at hk
      exact h₂ j k hj hk
    · intro j hj
      have hjne := hnotact j hj
      rw [hne j hjne] at hj ⊢
      exact h₃ j hj
    · intro j
      by_cases hj : j = i
      · subst hj
        rw [hi]
        exact h₄ j
      · rw [hne j hj]; exact h₄ j
  | errE i =>
    show C1Inv (errStep s i)
    rw [errStep]
    by_cases hl : (s.insts i).live = true
    swap
    · rw [if_neg hl]; exact ⟨h₁, h₂, h₃, h₄⟩
    rw [if_pos hl]
    have hne : ∀ j : Fin n, j ≠ i →
        (upd s i instErr).insts j = s.insts j :=
      fun j hj => upd_insts_ne _ _ hj
    have hi : (upd s i instErr).insts i = instErr (s.insts i) :=
      upd_insts_self ..
    have hnotact : ∀ j : Fin n,
        isActive ((upd s i instErr).insts j) → j ≠ i := by
      intro j hj hji
      subst hji
      rw [hi] at hj
      rcases hj with hj | hj <;> simp [instErr] at hj
    have hnotlive : ∀ j : Fin n,
        ((upd s i instErr).insts j).live = true → j ≠ i := by
      intro j hj hji
      subst hji
      rw [hi] at hj
      simp [instErr] at hj
    refine ⟨?_, ?_, ?_, ?_⟩
    · intro j k hj hk
      have hjne := hnotact j hj
      have hkne := hnotact k hk
      rw [hne j hjne] at hj
      rw [hne k hkne] at hk
      exact h₁ j k hj hk
    · intro j k hj hk
      have hjne := hnotlive j hj
      have hkne := hnotlive k hk
      rw [hne j hjne] at hj
      rw [hne k hkne] at hk
      exact h₂ j k hj hk
    · intro j hj
      have hjne := hnotact j hj
      rw [hne j hjne] at hj ⊢
      exact h₃ j hj
    · intro j
      by_cases hj : j = i
      · subst hj; rw [hi]; exact h₄ j
      · rw [hne j hj]; exact h₄ j

theorem c1Inv_init {n : Nat} (texts : Fin n → String) :
    C1Inv (initSys texts) := by
  refine c1Inv_of_silent _ ?_
  intro j
  refine ⟨?_, rfl, rfl, rfl⟩
  intro ha
  rcases ha with ha | ha <;> simp [initSys, initInst] at ha

theorem c1Inv_sopsRun {n : Nat} (ops : List (SOp n)) :
    ∀ s : Sys n, C1Inv s → C1Inv (sopsRun s ops) := by
  induction ops with
  | nil => intro s h; exact h
  | cons op rest ih =>
    intro s h
    exact ih (sopRun s op) (c1Inv_sopRun s op h)

/-- C1 counterexample: two controller instances whose `speak` calls both run
their synchronous phase (each including the process-wide stop) before either
`getIndianVoiceAsync().then(doSpeak)` continuation fires — exactly what
happens when two surfaces call `speak` in the same event-loop turn, since
`doSpeak` always runs in a later microtask even when the voice catalog is
already loaded. After both continuations run, both instances are in `Playing`
state at the same instant, although every call did invoke the process-wide
stop primitive first. -/
theorem c1_single_speaker_counterexample :
    isActive ((run (initSys fun _ : Fin 2 => "hello")
      [.speakCall 0 "first", .speakCall 1 "second", .resolveV 0,
       .resolveV 1]).insts 0) ∧
    isActive ((run (initSys fun _ : Fin 2 => "hello")
      [.speakCall 0 "first", .speakCall 1 "second", .resolveV 0,
       .resolveV 1]).insts 1) ∧
    (0 : Fin 2) ≠ (1 : Fin 2) := by
  refine ⟨Or.inl rfl, Or.inl rfl, ?_⟩
  decide

/-- C1 amended: for every sequence of serialized `speak`/`replay`/`stop`
calls and engine callbacks across any number of controller instances — i.e.
whenever each call's deferred continuations (the replay settle timer and the
voice-resolution `doSpeak`) run before the next call or callback is
processed — at most one instance is in `Playing` or `Paused` state at any
instant, because every such call routes through the process-wide stop
primitive first. The unserialized interleaving is excluded by the
counterexample. -/
theorem c1_single_speaker_amended {n : Nat} (texts : Fin n → String)
    (ops : List (SOp n)) :
    SingleSpeaker (sopsRun (initSys texts) ops) :=
  (c1Inv_sopsRun ops (initSys texts) (c1Inv_init texts)).1

/-- Witness for the amended C1 at a concrete serialized trace. -/
theorem c1_single_speaker_amended_witness :
    SingleSpeaker (sopsRun (initSys fun _ : Fin 2 => "x")
      [.speak 0 "first", .speak 1 "second", .endE 1, .replay 0]) :=
  c1_single_speaker_amended (fun _ : Fin 2 => "x")
    [.speak 0 "first", .speak 1 "second", .endE 1, .replay 0]

end Elexico

